import Mathlib

/-!
Verification of the price-watcher ingestion pipeline.

The Python sources under scripts/ are shallowly embedded below.  Text is
modelled as List Char; the BeautifulSoup document objects are modelled by
structures holding the observable results of the element lookups the code
performs (the text of the element a given selector finds, the attribute
values of a container element, and so on).  Network access and randomness
are modelled by explicit oracle parameters threaded into the entry points.
-/

namespace PriceWatcher

/-- Characters matched by the regex class [A-Z0-9] used for ASIN codes
in scripts/import_ranking.py. -/
def isAsinChar (c : Char) : Bool :=
  decide (('A' ≤ c ∧ c ≤ 'Z') ∨ ('0' ≤ c ∧ c ≤ '9'))

/-- The literal part of the regex r"/dp/([A-Z0-9]\x7b10\x7d)". -/
def dpMarker : List Char := ['/', 'd', 'p', '/']

/-- The literal part of the regex r"/gp/product/([A-Z0-9]\x7b10\x7d)". -/
def gpMarker : List Char :=
  ['/', 'g', 'p', '/', 'p', 'r', 'o', 'd', 'u', 'c', 't', '/']

/-- One attempted regex match at the current position: the marker must be a
literal prefix here, followed by at least 10 characters of class [A-Z0-9];
the captured group is those 10 characters. -/
def matchMarkerAt (m s : List Char) : Option (List Char) :=
  if m.isPrefixOf s then
    if ((s.drop m.length).take 10).length == 10 && ((s.drop m.length).take 10).all isAsinChar
    then some ((s.drop m.length).take 10) else none
  else none

/-- re.search: try the pattern at every position, left to right, and return
the first captured group. -/
def scanMarker (m : List Char) : List Char → Option (List Char)
  | [] => none
  | c :: t =>
    match matchMarkerAt m (c :: t) with
    | some code => some code
    | none => scanMarker m t

/-- scripts/import_ranking.py, extract_asin_from_url: try the /dp/ pattern
first, then the /gp/product/ pattern; None if neither matches. -/
def extract_asin_from_url (url : List Char) : Option (List Char) :=
  match scanMarker dpMarker url with
  | some asin => some asin
  | none => scanMarker gpMarker url

/-- Characters matched by the regex class [\d,] in scripts/update_prices.py,
parse_price.  The \d class is modelled as the ASCII digits. -/
def isDigitOrComma (c : Char) : Bool := c.isDigit || c == ','

/-- re.search for a character-class-plus pattern: the leftmost maximal run
of matching characters. -/
def firstRun (p : Char → Bool) : List Char → Option (List Char)
  | [] => none
  | c :: t => if p c then some ((c :: t).takeWhile p) else firstRun p t

/-- Decimal value of a digit string, as computed by Python int(). -/
def digitsToNat (ds : List Char) : Nat :=
  ds.foldl (fun n c => 10 * n + (c.toNat - '0'.toNat)) 0

/-- scripts/update_prices.py, parse_price: remove commas, search for the
first [\d,]+ run, strip commas from the match and parse it as an integer;
int() raising ValueError (empty digit string) yields None. -/
def parse_price (t : List Char) : Option Int :=
  match firstRun isDigitOrComma (t.filter (fun c => c != ',')) with
  | some run =>
      if (run.filter (fun c => c != ',')).isEmpty then none
      else some ((digitsToNat (run.filter (fun c => c != ',')) : Nat) : Int)
  | none => none

/-- The Python truthiness guard applied to every parse_price result in
scripts/update_prices.py (the idiom price = parse_price(text); if price:).
A parse failure or a parsed value of zero is rejected. -/
def acceptPrice : Option Int → Option Int
  | some p => if p ≠ 0 then some p else none
  | none => none

/-- The observable results of the BeautifulSoup lookups performed by
extract_price_from_html on a product page: the stripped text of the element
each selector finds (none when the selector finds no element), and the list
of stripped texts of all span.a-price-whole elements. -/
structure PriceDoc where
  idOurText : Option (List Char)
  idDealText : Option (List Char)
  classFirstText : Option (List Char)
  spanTexts : List (List Char)
  attrColorText : Option (List Char)

/-- Pattern 3 of extract_price_from_html: iterate all span.a-price-whole
elements and return the first text whose parse is accepted. -/
def firstAcceptedText : List (List Char) → Option Int
  | [] => none
  | t :: ts =>
    match acceptPrice (parse_price t) with
    | some p => some p
    | none => firstAcceptedText ts

/-- scripts/update_prices.py, extract_price_from_html: four lookup patterns
tried in order; pattern 1 uses the priceblock_ourprice element when present,
otherwise the priceblock_dealprice element. -/
def extract_price_from_html (doc : PriceDoc) : Option Int :=
  match acceptPrice ((doc.idOurText <|> doc.idDealText).bind parse_price) with
  | some p => some p
  | none =>
    match acceptPrice (doc.classFirstText.bind parse_price) with
    | some p => some p
    | none =>
      match firstAcceptedText doc.spanTexts with
      | some p => some p
      | none => acceptPrice (doc.attrColorText.bind parse_price)

/-- The value produced by the i-th lookup strategy of
extract_price_from_html, in the order the source tries them. -/
def stratVal (doc : PriceDoc) : Nat → Option Int
  | 0 => acceptPrice ((doc.idOurText <|> doc.idDealText).bind parse_price)
  | 1 => acceptPrice (doc.classFirstText.bind parse_price)
  | 2 => firstAcceptedText doc.spanTexts
  | 3 => acceptPrice (doc.attrColorText.bind parse_price)
  | _ => none

/-- scripts/update_prices.py, fallback_random_price: the sampled
random.randint(-100, 100) delta is passed in as d. -/
def fallback_random_price (current_price : Int) (d : Int) : Int :=
  max 1000 (current_price + d)

/-- One priceHistory entry. -/
structure PriceEntry where
  date : String
  price : Int
deriving DecidableEq

/-- One catalog record from data/products.json.  The asin and category keys
are optional because only external maintenance scripts write them. -/
structure Product where
  id : String
  name : String
  currentPrice : Int
  priceHistory : List PriceEntry
  affiliateUrl : List Char
  imageUrl : String
  asin : Option String := none
  category : Option String := none
deriving DecidableEq

/-- scripts/update_prices.py lines 161-163: keep only the most recent 30
history entries (Python history[-30:]). -/
def trimHistory (h : List PriceEntry) : List PriceEntry :=
  if 30 < h.length then h.drop (h.length - 30) else h

/-- The URL guard in update_prices: the record is scraped only when its
affiliateUrl is nonempty and starts with the live-store domain. -/
def isLiveUrl (u : List Char) : Bool :=
  "https://www.amazon.co.jp".toList.isPrefixOf u

/-- The body of the per-product loop of update_prices: scrape when the URL
is live (the oracle scraped gives the result of scrape_price), fall back to
fallback_random_price otherwise, then update currentPrice, append a history
entry and trim the history. -/
def processRecord (t : String) (scraped : Option Int) (d : Int) (r : Product) : Product :=
  let new_price : Int :=
    match (if isLiveUrl r.affiliateUrl then scraped else none) with
    | some p => p
    | none => fallback_random_price r.currentPrice d
  { r with
    currentPrice := new_price,
    priceHistory := trimHistory (r.priceHistory ++ [⟨t, new_price⟩]) }

/-- The loop of update_prices over products[:50], expressed with an explicit
budget: when the budget runs out the remaining records are written back
unchanged.  The oracles give, per record index, the timestamp, the
scrape_price result and the sampled random delta. -/
def updateLoop (time : Nat → String) (scraped : Nat → Option Int) (d : Nat → Int) :
    Nat → Nat → List Product → List Product
  | _, _, [] => []
  | _, 0, ps => ps
  | i, b + 1, p :: rest =>
      processRecord (time i) (scraped i) (d i) p ::
        updateLoop time scraped d (i + 1) b rest

/-- scripts/update_prices.py, update_prices: process the first 50 records
and persist the whole catalog (the returned list models the single
json.dump at the end of the run). -/
def update_prices (time : Nat → String) (scraped : Nat → Option Int) (d : Nat → Int)
    (products : List Product) : List Product :=
  updateLoop time scraped d 0 50 products

/-- scripts/import_ranking.py: the configured associate tag. -/
def ASSOCIATE_TAG : String := "xiora-22"

/-- scripts/import_ranking.py, build_affiliate_url. -/
def build_affiliate_url (asin : List Char) : List Char :=
  if ASSOCIATE_TAG = "YOUR_ID_HERE" then
    "https://www.amazon.co.jp/dp/".toList ++ asin
  else
    "https://www.amazon.co.jp/dp/".toList ++ asin ++ ("?tag=" ++ ASSOCIATE_TAG).toList

/-- scripts/import_ranking.py, get_existing_asins: the set of ASINs parsed
from the nonempty affiliateUrls of the existing records (modelled as a list
used only through membership). -/
def get_existing_asins (products : List Product) : List (List Char) :=
  products.filterMap fun p =>
    if p.affiliateUrl.isEmpty then none else extract_asin_from_url p.affiliateUrl

/-- Python int() restricted to the id strings the pipeline itself writes:
an optional sign followed by decimal digits. -/
def parseDecNat (s : List Char) : Option Nat :=
  if s ≠ [] ∧ s.all Char.isDigit then some (digitsToNat s) else none

/-- Python int() on a product id, None when int() raises ValueError. -/
def parseDecInt (s : List Char) : Option Int :=
  match s with
  | '-' :: rest => (parseDecNat rest).map fun n => -(n : Int)
  | '+' :: rest => (parseDecNat rest).map fun n => (n : Int)
  | _ => (parseDecNat s).map fun n => (n : Int)

/-- scripts/import_ranking.py, get_next_id: one more than the largest
integer-parsing id, or "1" for an empty catalog; unparseable ids are
skipped. -/
def get_next_id (products : List Product) : String :=
  if products.isEmpty then "1"
  else
    let max_id : Int := products.foldl
      (fun m p => match parseDecInt p.id.toList with
        | some v => max m v
        | none => m) 0
    toString (max_id + 1)

/-- One scraped candidate, the product_info dict built by
extract_product_from_element. -/
structure Candidate where
  asin : List Char
  name : String
  image_url : String
  price : Int
deriving DecidableEq

/-- The body of the per-candidate registration loop of import_ranking:
skip when the ASIN is already known, otherwise append a new record seeded
with a one-entry price history and record the ASIN as seen. -/
def mergeCandidate (now : String) (st : List Product × List (List Char))
    (c : Candidate) : List Product × List (List Char) :=
  if c.asin ∈ st.2 then st
  else
    (st.1 ++
      [{ id := get_next_id st.1
         name := c.name
         currentPrice := c.price
         priceHistory := [⟨now, c.price⟩]
         affiliateUrl := build_affiliate_url c.asin
         imageUrl := c.image_url }],
     st.2 ++ [c.asin])

/-- scripts/import_ranking.py, import_ranking: fold the scraped batches
(one list of candidates per ranking page) over the catalog, starting from
the existing ASIN set, and persist the resulting catalog. -/
def import_ranking (now : String) (batches : List (List Candidate))
    (products : List Product) : List Product :=
  (batches.foldl (fun st b => b.foldl (mergeCandidate now) st)
    (products, get_existing_asins products)).1

/-- The key a catalog record contributes to deduplication: the ASIN its
affiliateUrl parses to. -/
def keyOf (p : Product) : Option (List Char) :=
  extract_asin_from_url p.affiliateUrl

/-- Two records' affiliateUrls parse to the same ASIN. -/
def sameKey (a b : Product) : Bool :=
  match keyOf a, keyOf b with
  | some k1, some k2 => k1 == k2
  | _, _ => false

/-- No two records of the catalog have affiliateUrls parsing to the same
ASIN. -/
def NoDupKeys (ps : List Product) : Prop :=
  List.Pairwise (fun a b => sameKey a b = false) ps

instance : DecidablePred NoDupKeys := fun ps => by
  unfold NoDupKeys; infer_instance

/-- The invariant maintained by the registration loop of import_ranking:
the catalog keeps its original records as a prefix, has no duplicate keys,
and every key present in the catalog is recorded in the seen-ASIN set. -/
def MergeInv (ps0 : List Product) (st : List Product × List (List Char)) : Prop :=
  NoDupKeys st.1 ∧ (∀ p ∈ st.1, ∀ k, keyOf p = some k → k ∈ st.2) ∧
  ∃ extra, st.1 = ps0 ++ extra

/-- A well-formed ASIN: exactly 10 characters of class [A-Z0-9]. -/
def ValidAsin (a : List Char) : Prop :=
  a.length = 10 ∧ a.all isAsinChar = true

instance : DecidablePred ValidAsin := fun a => by
  unfold ValidAsin; infer_instance

/-- The observable attributes of one product container element on a ranking
page: its data-asin attribute (none when absent), the href of the first
link matching /dp/|/gp/product/ inside it (none when there is no such
link), the result of extract_product_name on it, and the result of
extract_image_url on it (which always yields a URL, falling back to the
placeholder). -/
structure Element where
  dataAsin : Option (List Char)
  linkHref : Option (List Char)
  nameText : Option String
  imageResolved : String
deriving DecidableEq

/-- The link fallback shared by the dedup pass and
extract_product_from_element: extract an ASIN from the first matching
link's href, None when there is no such link. -/
def asinFromLink (e : Element) : Option (List Char) :=
  match e.linkHref with
  | some href => extract_asin_from_url href
  | none => none

/-- Python str.strip() on the characters we model: drop ASCII whitespace at
both ends. -/
def stripChars (s : List Char) : List Char :=
  (((s.dropWhile Char.isWhitespace).reverse).dropWhile Char.isWhitespace).reverse

/-- scripts/import_ranking.py, extract_product_from_element: resolve the
ASIN from the data-asin attribute or, when it is missing or blank, from a
product link (returning None if that fails or there is no link); then
require a name; the price is always 0 at this stage. -/
def extract_product_from_element (e : Element) : Option Candidate :=
  let asinOpt : Option (List Char) :=
    match e.dataAsin with
    | some a =>
        if a.isEmpty ∨ (stripChars a).isEmpty then asinFromLink e else some a
    | none => asinFromLink e
  match asinOpt with
  | none => none
  | some asin =>
    match e.nameText with
    | none => none
    | some name => some { asin := asin, name := name, image_url := e.imageResolved, price := 0 }

/-- The dedup key used by the unique-element pass of scrape_ranking_page:
the data-asin attribute when present and nonempty, otherwise the ASIN
extracted from a product link. -/
def dedupKey (e : Element) : Option (List Char) :=
  match e.dataAsin with
  | some a => if a.isEmpty then asinFromLink e else some a
  | none => asinFromLink e

/-- The unique-element pass of scrape_ranking_page lines 262-276: keep each
element whose key resolves and has not been seen yet. -/
def dedupElements (seen : List (List Char)) : List Element → List Element
  | [] => []
  | e :: rest =>
    match dedupKey e with
    | some asin =>
        if asin ∈ seen then dedupElements seen rest
        else e :: dedupElements (seen ++ [asin]) rest
    | none => dedupElements seen rest

/-- scripts/import_ranking.py, scrape_ranking_page after the container
search: deduplicate the pooled container elements by ASIN, then run
extract_product_from_element on each survivor. -/
def scrape_ranking_page (pool : List Element) : List Candidate :=
  (dedupElements [] pool).filterMap extract_product_from_element

/-- The violations reported by scripts/validate_data.py, one constructor
per distinct message. -/
inductive VErr
  | requiredEmpty (field : String)
  | currentPriceNonPositive
  | historyPriceNegative (i : Nat)
  | historyNotChronological
  | historyNoDate (i : Nat)
  | historyBadDate (i : Nat)
  | asinBadLength
  | asinBadChars
  | asinNotExtractable
deriving DecidableEq

/-- scripts/validate_data.py, validate_required_fields: the four required
fields in order; in the typed model every field is present, so only the
Python falsiness check (empty string, zero number) can fire. -/
def validate_required_fields (p : Product) : List VErr :=
  (if p.id = "" then [VErr.requiredEmpty "id"] else []) ++
  (if p.name = "" then [VErr.requiredEmpty "name"] else []) ++
  (if p.currentPrice = 0 then [VErr.requiredEmpty "currentPrice"] else []) ++
  (if p.affiliateUrl.isEmpty then [VErr.requiredEmpty "affiliateUrl"] else [])

/-- scripts/validate_data.py, validate_price: currentPrice must be
strictly positive, history prices must merely be non-negative. -/
def validate_price (p : Product) : List VErr :=
  (if p.currentPrice ≤ 0 then [VErr.currentPriceNonPositive] else []) ++
  (List.range p.priceHistory.length).filterMap fun i =>
    match p.priceHistory[i]? with
    | some e => if e.price < 0 then some (VErr.historyPriceNegative i) else none
    | none => none

/-- scripts/validate_data.py, validate_price_history: the history must
already be sorted by date (Python sorted is a stable sort by the date
string), and each entry needs a well-formed date; dateOk models
datetime.fromisoformat succeeding. -/
def validate_price_history (dateOk : String → Bool) (h : List PriceEntry) : List VErr :=
  (if h = h.mergeSort (fun a b => a.date ≤ b.date) then []
   else [VErr.historyNotChronological]) ++
  (List.range h.length).filterMap fun i =>
    match h[i]? with
    | some e =>
        if e.date = "" then some (VErr.historyNoDate i)
        else if dateOk e.date then none else some (VErr.historyBadDate i)
    | none => none

/-- scripts/validate_data.py, validate_asin: check the standalone asin
field when present and truthy, and require the affiliateUrl to yield an
ASIN when nonempty. -/
def validate_asin (p : Product) : List VErr :=
  (match p.asin with
   | some a =>
       if a = "" then []
       else if a.length ≠ 10 then [VErr.asinBadLength]
       else if ¬ (a.toList.all Char.isAlphanum) then [VErr.asinBadChars]
       else []
   | none => []) ++
  (if p.affiliateUrl.isEmpty then []
   else match extract_asin_from_url p.affiliateUrl with
     | some _ => []
     | none => [VErr.asinNotExtractable])

/-- scripts/validate_data.py, validate_product: required fields, price
validity, history order (only when the history is nonempty), ASIN shape. -/
def validate_product (dateOk : String → Bool) (p : Product) : List VErr :=
  validate_required_fields p ++
  validate_price p ++
  (if p.priceHistory.isEmpty then [] else validate_price_history dateOk p.priceHistory) ++
  validate_asin p

/-- scripts/validate_data.py, main: the run exits successfully iff no
product produced any error. -/
def validationPasses (dateOk : String → Bool) (products : List Product) : Bool :=
  ((products.map (validate_product dateOk)).flatten).isEmpty

/-- The catalog states reachable from an empty catalog by discovery and
refresh runs. -/
inductive Reachable : List Product → Prop
  | init : Reachable []
  | discovery (now : String) (batches : List (List Candidate)) (ps : List Product) :
      Reachable ps → Reachable (import_ranking now batches ps)
  | refresh (time : Nat → String) (scraped : Nat → Option Int) (d : Nat → Int)
      (ps : List Product) :
      Reachable ps → Reachable (update_prices time scraped d ps)

/-- The URL contains the path shape marker ++ code with a 10-character
[A-Z0-9] code: the spec's "contains the path shape /dp/CODE or
/gp/product/CODE". -/
def HasCode (m u : List Char) : Prop :=
  ∃ pre code post,
    u = pre ++ m ++ code ++ post ∧ code.length = 10 ∧ code.all isAsinChar = true

/-- A character that is not an ASCII digit (used to state the non-numeric
text case of price parsing). -/
def nonDigitChar (c : Char) : Bool := !c.isDigit

/-- Oracle for witnesses: a constant timestamp per record index. -/
def timeO : Nat → String := fun _ => "2026-01-01T00:00:00+00:00"

/-- Oracle for witnesses: scraping always fails. -/
def noScrape : Nat → Option Int := fun _ => none

/-- Oracle for witnesses: the sampled random delta is always zero. -/
def zeroDelta : Nat → Int := fun _ => 0

/-- Oracle for witnesses: every date string is accepted by fromisoformat. -/
def trueDateOk : String → Bool := fun _ => true

/-- A concrete catalog record with a dummy (non-live) URL, used by
witnesses. -/
def plainRecord : Product :=
  { id := "7", name := "Speaker", currentPrice := 500, priceHistory := [],
    affiliateUrl := [], imageUrl := "img" }

/-- The record plainRecord becomes after one refresh run with the witness
oracles: scraping is skipped (dummy URL), the fallback with delta 0 raises
the price to the 1000 floor, and one history entry is appended. -/
def refreshedPlain : Product :=
  { id := "7", name := "Speaker", currentPrice := 1000,
    priceHistory := [⟨"2026-01-01T00:00:00+00:00", 1000⟩],
    affiliateUrl := [], imageUrl := "img" }

/-- A concrete well-formed ASIN used by witnesses. -/
def sampleAsin : List Char := "B000TEST01".toList

/-- A concrete scraped candidate used by witnesses. -/
def sampleCandidate : Candidate :=
  { asin := sampleAsin, name := "Sample item",
    image_url := "https://img.example/a.jpg", price := 0 }

/-- The catalog produced by one discovery run over a single page yielding
sampleCandidate, starting from the empty catalog. -/
def sampleCatalog : List Product := import_ranking "2026-01-01" [[sampleCandidate]] []

/-- The record that discovery run creates. -/
def sampleSeeded : Product :=
  { id := "1", name := "Sample item", currentPrice := 0,
    priceHistory := [⟨"2026-01-01", 0⟩],
    affiliateUrl := build_affiliate_url sampleAsin,
    imageUrl := "https://img.example/a.jpg" }

/-- A 31-entry price history, used to exercise the trim. -/
def longHistory : List PriceEntry := List.replicate 31 ⟨"2026-01-01", 500⟩

/-- A concrete ranking-page container element used by witnesses. -/
def dupElement : Element :=
  { dataAsin := some "B07DUPTEST".toList, linkHref := none,
    nameText := some "Gadget", imageResolved := "https://img.example/b.jpg" }

/-- The candidate dupElement extracts to. -/
def dupCandidate : Candidate :=
  { asin := "B07DUPTEST".toList, name := "Gadget",
    image_url := "https://img.example/b.jpg", price := 0 }

/-- A record with positive currentPrice and a zero-priced history entry
(the documented state of a freshly discovered record after one refresh
seeded it): used to exercise the validator. -/
def zeroHistRecord : Product :=
  { id := "9", name := "Monitor", currentPrice := 980,
    priceHistory := [⟨"2026-01-01", 0⟩],
    affiliateUrl := "https://www.amazon.co.jp/dp/B000TEST01".toList,
    imageUrl := "img" }

/-- A record with currentPrice zero, the state discovery itself creates. -/
def zeroPriceRecord : Product :=
  { id := "10", name := "Keyboard", currentPrice := 0,
    priceHistory := [⟨"2026-01-01", 0⟩],
    affiliateUrl := "https://www.amazon.co.jp/dp/B000TEST02".toList,
    imageUrl := "img" }

/-- Counterexample batch for C1: a candidate with a well-formed 10-character
ASIN and a candidate whose data-asin attribute carried 12 uppercase
characters.  Both are appended (their raw ASIN strings differ), but both
affiliate URLs parse back to the same 10-character externalKey. -/
def shortKeyCandidate : Candidate :=
  { asin := "ABCDEFGHIJ".toList, name := "First", image_url := "img", price := 0 }

/-- See shortKeyCandidate. -/
def longKeyCandidate : Candidate :=
  { asin := "ABCDEFGHIJKL".toList, name := "Second", image_url := "img", price := 0 }

/-! ### Lemmas about the regex scan performed by extract_asin_from_url -/

theorem matchMarkerAt_some {m s c : List Char} (h : matchMarkerAt m s = some c) :
    ∃ post, s = m ++ c ++ post ∧ c.length = 10 ∧ c.all isAsinChar = true := by
  unfold matchMarkerAt at h
  split at h
  · next hp =>
    obtain ⟨t, ht⟩ : ∃ t, m ++ t = s := List.isPrefixOf_iff_prefix.mp hp
    subst ht
    rw [List.drop_left] at h
    split at h
    · next hcond =>
      rw [Option.some_inj] at h
      subst h
      rw [Bool.and_eq_true, beq_iff_eq] at hcond
      exact ⟨t.drop 10, by rw [List.append_assoc, List.take_append_drop],
        hcond.1, hcond.2⟩
    · exact Option.noConfusion h
  · exact Option.noConfusion h

theorem matchMarkerAt_exact {m c : List Char} (h10 : c.length = 10)
    (hall : c.all isAsinChar = true) : matchMarkerAt m (m ++ c) = some c := by
  have hpre : m.isPrefixOf (m ++ c) = true :=
    List.isPrefixOf_iff_prefix.mpr (List.prefix_append m c)
  have htake : c.take 10 = c := by rw [← h10]; exact List.take_length c
  unfold matchMarkerAt
  rw [if_pos hpre, List.drop_left, htake]
  simp [h10, hall]

theorem matchMarkerAt_shape {m c post : List Char} (h10 : c.length = 10)
    (hall : c.all isAsinChar = true) :
    matchMarkerAt m (m ++ c ++ post) = some c := by
  have hpre : m.isPrefixOf (m ++ (c ++ post)) = true :=
    List.isPrefixOf_iff_prefix.mpr (List.prefix_append m (c ++ post))
  unfold matchMarkerAt
  rw [List.append_assoc, if_pos hpre, List.drop_left, List.take_left' h10]
  simp [h10, hall]

theorem scanMarker_cons_some {m : List Char} {x : Char} {t code : List Char}
    (h : matchMarkerAt m (x :: t) = some code) :
    scanMarker m (x :: t) = some code := by
  unfold scanMarker
  rw [h]

theorem scanMarker_cons_none {m : List Char} {x : Char} {t : List Char}
    (h : matchMarkerAt m (x :: t) = none) :
    scanMarker m (x :: t) = scanMarker m t := by
  unfold scanMarker
  rw [h]
  cases t <;> rfl

theorem scanMarker_some {m : List Char} : ∀ {u c : List Char},
    scanMarker m u = some c →
    ∃ pre post, u = pre ++ m ++ c ++ post ∧ c.length = 10 ∧ c.all isAsinChar = true := by
  intro u
  induction u with
  | nil => intro c h; exact Option.noConfusion h
  | cons x t ih =>
    intro c h
    cases hm : matchMarkerAt m (x :: t) with
    | some code =>
      rw [scanMarker_cons_some hm] at h
      injection h with h
      subst h
      obtain ⟨post, hshape, h10, hall⟩ := matchMarkerAt_some hm
      exact ⟨[], post, by simpa using hshape, h10, hall⟩
    | none =>
      rw [scanMarker_cons_none hm] at h
      obtain ⟨pre, post, hshape, h10, hall⟩ := ih h
      exact ⟨x :: pre, post, by simp [hshape], h10, hall⟩

theorem scanMarker_isSome_of {m : List Char} (pre c post : List Char)
    (h10 : c.length = 10) (hall : c.all isAsinChar = true) :
    (scanMarker m (pre ++ m ++ c ++ post)).isSome = true := by
  induction pre with
  | nil =>
    have hm : matchMarkerAt m (m ++ c ++ post) = some c := matchMarkerAt_shape h10 hall
    cases hu : ((m ++ c ++ post) : List Char) with
    | nil =>
      exfalso
      have hL := congrArg List.length hu
      simp [List.length_append, h10] at hL
    | cons y ys =>
      rw [hu] at hm
      simp only [List.nil_append]
      rw [hu, scanMarker_cons_some hm]
      rfl
  | cons x pre' ih =>
    show (scanMarker m (x :: ((pre' ++ m) ++ c ++ post))).isSome = true
    cases hm : matchMarkerAt m (x :: ((pre' ++ m) ++ c ++ post)) with
    | some code => rw [scanMarker_cons_some hm]; rfl
    | none => rw [scanMarker_cons_none hm]; exact ih

theorem scanMarker_some_length {m u c : List Char} (h : scanMarker m u = some c) :
    m.length + 10 ≤ u.length := by
  obtain ⟨pre, post, hshape, h10, -⟩ := scanMarker_some h
  have hL := congrArg List.length hshape
  simp [List.length_append, h10] at hL
  omega

theorem prefix_shrink {w a b : List Char} (h : w <+: a ++ b)
    (hl : w.length ≤ a.length) : w <+: a := by
  rw [List.prefix_iff_eq_take] at h ⊢
  rw [List.take_append_of_le_length hl] at h
  exact h

theorem matchMarkerAt_append {m s v : List Char} (hs : m.length + 10 ≤ s.length) :
    matchMarkerAt m (s ++ v) = matchMarkerAt m s := by
  unfold matchMarkerAt
  by_cases hp : m <+: s
  · have hp1 : m.isPrefixOf s = true := List.isPrefixOf_iff_prefix.mpr hp
    have hp2 : m.isPrefixOf (s ++ v) = true :=
      List.isPrefixOf_iff_prefix.mpr (hp.trans (List.prefix_append s v))
    have hd : (s ++ v).drop m.length = s.drop m.length ++ v :=
      List.drop_append_of_le_length (by omega)
    have ht : (s.drop m.length ++ v).take 10 = (s.drop m.length).take 10 :=
      List.take_append_of_le_length (by rw [List.length_drop]; omega)
    rw [if_pos hp1, if_pos hp2, hd, ht]
  · have hp1 : ¬ m.isPrefixOf s = true := fun hh => hp (List.isPrefixOf_iff_prefix.mp hh)
    have hp2 : ¬ m.isPrefixOf (s ++ v) = true := fun hh =>
      hp (prefix_shrink (List.isPrefixOf_iff_prefix.mp hh) (by omega))
    rw [if_neg hp1, if_neg hp2]

theorem scanMarker_append {m v : List Char} : ∀ {u c : List Char},
    scanMarker m u = some c → scanMarker m (u ++ v) = some c := by
  intro u
  induction u with
  | nil => intro c h; exact Option.noConfusion h
  | cons x t ih =>
    intro c h
    show scanMarker m (x :: (t ++ v)) = some c
    cases hm : matchMarkerAt m (x :: t) with
    | some code =>
      rw [scanMarker_cons_some hm] at h
      injection h with h
      subst h
      obtain ⟨post, hshape, h10, -⟩ := matchMarkerAt_some hm
      have hL := congrArg List.length hshape
      simp [List.length_append, h10] at hL
      have hlen : m.length + 10 ≤ (x :: t).length := by simp [List.length_cons]; omega
      have hstable : matchMarkerAt m (x :: (t ++ v)) = some code := by
        have := matchMarkerAt_append (s := x :: t) (v := v) hlen
        rw [hm] at this
        exact this
      exact scanMarker_cons_some hstable
    | none =>
      rw [scanMarker_cons_none hm] at h
      have hlen : m.length + 10 ≤ (x :: t).length := by
        have := scanMarker_some_length h
        simp [List.length_cons]
        omega
      have hstable : matchMarkerAt m (x :: (t ++ v)) = none := by
        have := matchMarkerAt_append (s := x :: t) (v := v) hlen
        rw [hm] at this
        exact this
      rw [scanMarker_cons_none hstable]
      exact ih h

theorem scanMarker_query_none {m u q : List Char}
    (hmm : '/' ∈ m) (hqm : '?' ∉ m) (hq : '/' ∉ q)
    (hu : scanMarker m u = none) :
    scanMarker m (u ++ '?' :: q) = none := by
  cases hs : scanMarker m (u ++ '?' :: q) with
  | none => rfl
  | some c =>
    exfalso
    obtain ⟨pre, post, hshape, h10, hall⟩ := scanMarker_some hs
    have hshape' : u ++ '?' :: q = pre ++ ((m ++ c) ++ post) := by
      rw [hshape]; simp [List.append_assoc]
    have hLtot := congrArg List.length hshape'
    simp only [List.length_append, List.length_cons] at hLtot
    by_cases hcase1 : pre.length + m.length + c.length ≤ u.length
    · have hpfx : (pre ++ m) ++ c <+: u := by
        apply prefix_shrink (b := '?' :: q)
        · exact ⟨post, by rw [← hshape]⟩
        · simp [List.length_append]; omega
      obtain ⟨rest, hrest⟩ := hpfx
      have hsome : (scanMarker m (pre ++ m ++ c ++ rest)).isSome = true :=
        scanMarker_isSome_of pre c rest h10 hall
      rw [hrest, hu] at hsome
      exact Bool.noConfusion hsome
    · by_cases hcase2 : pre.length ≤ u.length
      · -- the '?' separator would have to sit inside the marker-plus-code match
        have hq0 : (u ++ '?' :: q)[u.length]? = some '?' := by
          rw [List.getElem?_append_right (le_refl u.length)]
          simp
        rw [hshape'] at hq0
        rw [List.getElem?_append_right hcase2] at hq0
        rw [List.getElem?_append_left (by simp [List.length_append]; omega)] at hq0
        have hmem : '?' ∈ m ++ c := List.getElem?_mem hq0
        rcases List.mem_append.mp hmem with hin | hin
        · exact hqm hin
        · rw [List.all_eq_true] at hall
          have := hall _ hin
          simp [isAsinChar] at this
      · -- the whole marker would have to sit inside q, but q has no slash
        push_neg at hcase2
        obtain ⟨j0, hj0, hj0eq⟩ := List.getElem_of_mem hmm
        have hi : (pre ++ ((m ++ c) ++ post))[pre.length + j0]? = some '/' := by
          rw [List.getElem?_append_right (Nat.le_add_right _ _)]
          rw [Nat.add_sub_cancel_left]
          rw [List.getElem?_append_left (by simp [List.length_append]; omega)]
          rw [List.getElem?_append_left hj0]
          rw [List.getElem?_eq_getElem hj0]
          rw [hj0eq]
        rw [← hshape'] at hi
        rw [List.getElem?_append_right (by omega)] at hi
        have hk : pre.length + j0 - u.length = (pre.length + j0 - u.length - 1) + 1 := by
          omega
        rw [hk, List.getElem?_cons_succ] at hi
        exact hq (List.getElem?_mem hi)

theorem scanMarker_query {m u q : List Char}
    (hmm : '/' ∈ m) (hqm : '?' ∉ m) (hq : '/' ∉ q) :
    scanMarker m (u ++ '?' :: q) = scanMarker m u := by
  cases hu : scanMarker m u with
  | some c => exact scanMarker_append hu
  | none => exact scanMarker_query_none hmm hqm hq hu

theorem extract_asin_query {u c q : List Char}
    (h : extract_asin_from_url u = some c) (hq : '/' ∉ q) :
    extract_asin_from_url (u ++ '?' :: q) = some c := by
  unfold extract_asin_from_url at h ⊢
  have hdp : scanMarker dpMarker (u ++ '?' :: q) = scanMarker dpMarker u :=
    scanMarker_query (by decide) (by decide) hq
  have hgp : scanMarker gpMarker (u ++ '?' :: q) = scanMarker gpMarker u :=
    scanMarker_query (by decide) (by decide) hq
  rw [hdp, hgp]
  exact h

theorem extract_asin_shape {u c : List Char}
    (h : extract_asin_from_url u = some c) :
    c.length = 10 ∧ c.all isAsinChar = true := by
  unfold extract_asin_from_url at h
  cases hdp : scanMarker dpMarker u with
  | some a =>
    rw [hdp] at h
    injection h with h
    subst h
    obtain ⟨-, -, -, h10, hall⟩ := scanMarker_some hdp
    exact ⟨h10, hall⟩
  | none =>
    rw [hdp] at h
    obtain ⟨-, -, -, h10, hall⟩ := scanMarker_some h
    exact ⟨h10, hall⟩

theorem extract_asin_isSome_iff (u : List Char) :
    (extract_asin_from_url u).isSome = true ↔
      (HasCode dpMarker u ∨ HasCode gpMarker u) := by
  constructor
  · intro h
    unfold extract_asin_from_url at h
    cases hdp : scanMarker dpMarker u with
    | some a =>
      obtain ⟨pre, post, hsh, h10, hall⟩ := scanMarker_some hdp
      exact Or.inl ⟨pre, a, post, hsh, h10, hall⟩
    | none =>
      rw [hdp] at h
      cases hgp : scanMarker gpMarker u with
      | some a =>
        obtain ⟨pre, post, hsh, h10, hall⟩ := scanMarker_some hgp
        exact Or.inr ⟨pre, a, post, hsh, h10, hall⟩
      | none =>
        rw [hgp] at h
        exact Bool.noConfusion h
  · intro h
    unfold extract_asin_from_url
    cases hdp : scanMarker dpMarker u with
    | some a => rfl
    | none =>
      rcases h with ⟨pre, code, post, hsh, h10, hall⟩ | ⟨pre, code, post, hsh, h10, hall⟩
      · exfalso
        have hsome := scanMarker_isSome_of (m := dpMarker) pre code post h10 hall
        rw [← hsh, hdp] at hsome
        exact Bool.noConfusion hsome
      · have hsome := scanMarker_isSome_of (m := gpMarker) pre code post h10 hall
        rw [← hsh] at hsome
        exact hsome

/-- Claim C5: extract_asin_from_url is a pure function of the URL string
(determinism holds by construction, since it is a Lean function of the url
argument alone); it returns a code exactly when the URL contains the path
shape /dp/CODE or /gp/product/CODE with a 10-character [A-Z0-9] code; every
returned code has exactly that shape; and a query string (a '?' followed by
slash-free text) appended after the URL does not change the result. -/
theorem extract_asin_from_url_contract :
    (∀ u, (extract_asin_from_url u).isSome = true ↔
        (HasCode dpMarker u ∨ HasCode gpMarker u)) ∧
    (∀ u c, extract_asin_from_url u = some c →
        c.length = 10 ∧ c.all isAsinChar = true) ∧
    (∀ u c q, extract_asin_from_url u = some c → '/' ∉ q →
        extract_asin_from_url (u ++ '?' :: q) = some c) :=
  ⟨extract_asin_isSome_iff, fun _ _ h => extract_asin_shape h,
    fun _ _ _ h hq => extract_asin_query h hq⟩

/-- Witness for C5: the contract evaluated on a concrete catalog URL and a
concrete query string. -/
theorem extract_asin_from_url_contract_witness :
    extract_asin_from_url "https://www.amazon.co.jp/dp/B09XS2V1GT".toList
      = some "B09XS2V1GT".toList ∧
    ('/' ∉ "tag=xiora-22".toList) ∧
    extract_asin_from_url
        ("https://www.amazon.co.jp/dp/B09XS2V1GT".toList ++ '?' :: "tag=xiora-22".toList)
      = some "B09XS2V1GT".toList :=
  ⟨by decide, by decide,
    extract_asin_from_url_contract.2.2 _ _ _ (by decide) (by decide)⟩

/-! ### Price parsing (C4) -/

theorem firstRun_eq_none {p : Char → Bool} :
    ∀ {l : List Char}, (∀ c ∈ l, p c = false) → firstRun p l = none := by
  intro l
  induction l with
  | nil => intro _; rfl
  | cons c t ih =>
    intro h
    have hc : p c = false := h c (List.mem_cons_self c t)
    unfold firstRun
    rw [hc]
    simp only [Bool.false_eq_true, if_false]
    exact ih fun x hx => h x (List.mem_cons_of_mem c hx)

/-- Claim C4: parse_price maps "¥248,000" to 248000; for "¥0" the parsed
value is rejected by the truthiness guard that every caller applies to the
result (the price = parse_price(text); if price: idiom), so "¥0" is treated
as not found; and text containing no digit produces no parse at all (the
regex class \d is modelled as the ASCII digits). -/
theorem parse_price_cases :
    parse_price "¥248,000".toList = some 248000 ∧
    acceptPrice (parse_price "¥0".toList) = none ∧
    (∀ t : List Char, t.all nonDigitChar = true → parse_price t = none) := by
  refine ⟨by decide, by decide, ?_⟩
  intro t ht
  rw [List.all_eq_true] at ht
  have hnone : firstRun isDigitOrComma (t.filter (fun c => c != ',')) = none := by
    apply firstRun_eq_none
    intro c hc
    obtain ⟨hct, hcomma⟩ := List.mem_filter.mp hc
    have hd : c.isDigit = false := by
      have := ht c hct
      simp [nonDigitChar] at this
      exact this
    have hcm : (c == ',') = false :=
      beq_eq_false_iff_ne.mpr (bne_iff_ne.mp hcomma)
    simp [isDigitOrComma, hd, hcm]
  unfold parse_price
  rw [hnone]

/-- Witness for C4: the non-numeric branch evaluated on concrete Japanese
stock-status text. -/
theorem parse_price_cases_witness :
    "在庫なし".toList.all nonDigitChar = true ∧
    parse_price "在庫なし".toList = none :=
  ⟨by decide, parse_price_cases.2.2 _ (by decide)⟩

/-! ### Fallback degradation (C6) -/

/-- Claim C6: for every current price and every sampled delta in
[-100, 100], fallback_random_price returns max 1000 (price + delta), the
result is always at least 1000, and on a current price of 1000 the result
lies in [1000, 1100]. -/
theorem fallback_random_price_contract (p d : Int) (h1 : -100 ≤ d) (h2 : d ≤ 100) :
    fallback_random_price p d = max 1000 (p + d) ∧
    1000 ≤ fallback_random_price p d ∧
    (p = 1000 → 1000 ≤ fallback_random_price p d ∧ fallback_random_price p d ≤ 1100) := by
  refine ⟨rfl, le_max_left _ _, ?_⟩
  intro hp
  subst hp
  unfold fallback_random_price
  exact ⟨le_max_left _ _, max_le (by omega) (by omega)⟩

/-- Witness for C6: the contract evaluated at price 1000 and delta 37. -/
theorem fallback_random_price_contract_witness :
    (-100 ≤ (37 : Int)) ∧ ((37 : Int) ≤ 100) ∧
    (fallback_random_price 1000 37 = max 1000 (1000 + 37) ∧
     1000 ≤ fallback_random_price 1000 37 ∧
     ((1000 : Int) = 1000 → 1000 ≤ fallback_random_price 1000 37 ∧
        fallback_random_price 1000 37 ≤ 1100)) :=
  ⟨by decide, by decide, fallback_random_price_contract 1000 37 (by decide) (by decide)⟩

/-! ### Price extractor strategy order (C7) -/

theorem parse_price_nonneg {t : List Char} {v : Int} (h : parse_price t = some v) :
    0 ≤ v := by
  unfold parse_price at h
  split at h
  · split at h
    · exact Option.noConfusion h
    · injection h with h
      rw [← h]
      exact Int.natCast_nonneg _
  · exact Option.noConfusion h

theorem acceptPrice_bind_pos {o : Option (List Char)} {p : Int}
    (h : acceptPrice (o.bind parse_price) = some p) : 0 < p := by
  cases o with
  | none => exact Option.noConfusion h
  | some t =>
    rw [Option.some_bind] at h
    cases hp : parse_price t with
    | none => rw [hp] at h; exact Option.noConfusion h
    | some v =>
      rw [hp] at h
      simp only [acceptPrice] at h
      split at h
      · injection h with h
        have := parse_price_nonneg hp
        omega
      · exact Option.noConfusion h

theorem firstAcceptedText_pos : ∀ {ts : List (List Char)} {p : Int},
    firstAcceptedText ts = some p → 0 < p := by
  intro ts
  induction ts with
  | nil => intro p h; exact Option.noConfusion h
  | cons t ts ih =>
    intro p h
    unfold firstAcceptedText at h
    cases ha : acceptPrice (parse_price t) with
    | some v =>
      rw [ha] at h
      injection h with h
      subst h
      exact acceptPrice_bind_pos (o := some t) (by simpa using ha)
    | none =>
      rw [ha] at h
      exact ih h

/-- Claim C7: extract_price_from_html applies its four lookup strategies in
the fixed source order and returns the value of the first strategy whose
text parses to a positive integer; it returns none exactly when every
strategy yields none (a zero parse or a parse failure makes a strategy
yield none, so the next one is tried); and every returned price is
positive. -/
theorem extract_price_from_html_order (doc : PriceDoc) :
    (∀ p, stratVal doc 0 = some p → extract_price_from_html doc = some p) ∧
    (∀ p, stratVal doc 0 = none → stratVal doc 1 = some p →
        extract_price_from_html doc = some p) ∧
    (∀ p, stratVal doc 0 = none → stratVal doc 1 = none → stratVal doc 2 = some p →
        extract_price_from_html doc = some p) ∧
    (∀ p, stratVal doc 0 = none → stratVal doc 1 = none → stratVal doc 2 = none →
        stratVal doc 3 = some p → extract_price_from_html doc = some p) ∧
    (extract_price_from_html doc = none ↔
        stratVal doc 0 = none ∧ stratVal doc 1 = none ∧
        stratVal doc 2 = none ∧ stratVal doc 3 = none) ∧
    (∀ p, extract_price_from_html doc = some p → 0 < p) := by
  have he : extract_price_from_html doc =
      (match stratVal doc 0 with
       | some p => some p
       | none => match stratVal doc 1 with
         | some p => some p
         | none => match stratVal doc 2 with
           | some p => some p
           | none => stratVal doc 3) := rfl
  refine ⟨?_, ?_, ?_, ?_, ?_, ?_⟩
  · intro p h0
    rw [he, h0]
  · intro p h0 h1
    rw [he, h0, h1]
  · intro p h0 h1 h2
    rw [he, h0, h1, h2]
  · intro p h0 h1 h2 h3
    rw [he, h0, h1, h2, h3]
  · constructor
    · intro h
      rw [he] at h
      cases s0 : stratVal doc 0 with
      | some v => rw [s0] at h; exact Option.noConfusion h
      | none =>
        rw [s0] at h
        cases s1 : stratVal doc 1 with
        | some v => rw [s1] at h; exact Option.noConfusion h
        | none =>
          rw [s1] at h
          cases s2 : stratVal doc 2 with
          | some v => rw [s2] at h; exact Option.noConfusion h
          | none =>
            rw [s2] at h
            exact ⟨rfl, rfl, rfl, h⟩
    · rintro ⟨h0, h1, h2, h3⟩
      rw [he, h0, h1, h2, h3]
  · intro p h
    rw [he] at h
    cases s0 : stratVal doc 0 with
    | some v =>
      rw [s0] at h
      injection h with h
      subst h
      exact acceptPrice_bind_pos s0
    | none =>
      rw [s0] at h
      cases s1 : stratVal doc 1 with
      | some v =>
        rw [s1] at h
        injection h with h
        subst h
        exact acceptPrice_bind_pos s1
      | none =>
        rw [s1] at h
        cases s2 : stratVal doc 2 with
        | some v =>
          rw [s2] at h
          injection h with h
          subst h
          exact firstAcceptedText_pos s2
        | none =>
          rw [s2] at h
          exact acceptPrice_bind_pos h

/-- Witness for C7: a document whose first strategy finds the text "¥500"
makes the extractor return 500. -/
theorem extract_price_from_html_order_witness :
    stratVal (⟨some "¥500".toList, none, none, [], none⟩ : PriceDoc) 0 = some 500 ∧
    extract_price_from_html (⟨some "¥500".toList, none, none, [], none⟩ : PriceDoc)
      = some 500 :=
  ⟨by decide,
    (extract_price_from_html_order ⟨some "¥500".toList, none, none, [], none⟩).1 500
      (by decide)⟩

/-! ### Refresh run: history/current-price consistency (C2) and frame (C8) -/

theorem getLast?_trimHistory_concat (h : List PriceEntry) (e : PriceEntry) :
    (trimHistory (h ++ [e])).getLast? = some e := by
  unfold trimHistory
  split
  · next hlen =>
    have hk : (h ++ [e]).length - 30 ≤ h.length := by
      simp only [List.length_append, List.length_cons, List.length_nil]
      omega
    rw [List.drop_append_of_le_length hk]
    exact List.getLast?_concat _
  · exact List.getLast?_concat _

theorem processRecord_priceHistory (t : String) (s : Option Int) (dd : Int) (r : Product) :
    (processRecord t s dd r).priceHistory
      = trimHistory (r.priceHistory ++ [⟨t, (processRecord t s dd r).currentPrice⟩]) := rfl

theorem processRecord_consistent (t : String) (s : Option Int) (dd : Int) (r : Product) :
    Option.map PriceEntry.price (processRecord t s dd r).priceHistory.getLast?
      = some (processRecord t s dd r).currentPrice := by
  rw [processRecord_priceHistory, getLast?_trimHistory_concat]
  rfl

theorem updateLoop_mem_lt {time : Nat → String} {scraped : Nat → Option Int}
    {d : Nat → Int} : ∀ (ps : List Product) (b i0 i : Nat) (r : Product),
    i < b → (updateLoop time scraped d i0 b ps)[i]? = some r →
    ∃ j x, r = processRecord (time j) (scraped j) (d j) x := by
  intro ps
  induction ps with
  | nil =>
    intro b i0 i r hi hr
    rw [show updateLoop time scraped d i0 b [] = [] from by cases b <;> rfl] at hr
    exact Option.noConfusion hr
  | cons p rest ih =>
    intro b i0 i r hi hr
    cases b with
    | zero => omega
    | succ b' =>
      unfold updateLoop at hr
      cases i with
      | zero =>
        rw [List.getElem?_cons_zero] at hr
        injection hr with hr
        exact ⟨i0, p, hr.symm⟩
      | succ i' =>
        rw [List.getElem?_cons_succ] at hr
        exact ih b' (i0 + 1) i' r (by omega) hr

/-- Claim C2: after a refresh run, every processed record (one of the first
50) has currentPrice equal to the price of the last element of its
priceHistory. -/
theorem refresh_currentPrice_matches_history (time : Nat → String)
    (scraped : Nat → Option Int) (d : Nat → Int) (ps : List Product)
    (i : Nat) (r : Product) (hi : i < 50)
    (hr : (update_prices time scraped d ps)[i]? = some r) :
    Option.map PriceEntry.price r.priceHistory.getLast? = some r.currentPrice := by
  obtain ⟨j, x, rfl⟩ := updateLoop_mem_lt ps 50 0 i r hi hr
  exact processRecord_consistent _ _ _ _

/-- Witness for C2: one refresh run over a one-record catalog. -/
theorem refresh_currentPrice_matches_history_witness :
    (0 < 50) ∧
    (update_prices timeO noScrape zeroDelta [plainRecord])[0]? = some refreshedPlain ∧
    Option.map PriceEntry.price refreshedPlain.priceHistory.getLast?
      = some refreshedPlain.currentPrice :=
  ⟨by decide, by decide,
    refresh_currentPrice_matches_history timeO noScrape zeroDelta [plainRecord] 0
      refreshedPlain (by decide) (by decide)⟩

theorem updateLoop_length {time : Nat → String} {scraped : Nat → Option Int}
    {d : Nat → Int} : ∀ (ps : List Product) (b i0 : Nat),
    (updateLoop time scraped d i0 b ps).length = ps.length := by
  intro ps
  induction ps with
  | nil => intro b i0; cases b <;> rfl
  | cons p rest ih =>
    intro b i0
    cases b with
    | zero => rfl
    | succ b' =>
      unfold updateLoop
      rw [List.length_cons, List.length_cons, ih b' (i0 + 1)]

theorem updateLoop_getElem?_ge {time : Nat → String} {scraped : Nat → Option Int}
    {d : Nat → Int} : ∀ (ps : List Product) (b i0 i : Nat),
    b ≤ i → (updateLoop time scraped d i0 b ps)[i]? = ps[i]? := by
  intro ps
  induction ps with
  | nil => intro b i0 i hb; cases b <;> rfl
  | cons p rest ih =>
    intro b i0 i hb
    cases b with
    | zero => rfl
    | succ b' =>
      cases i with
      | zero => omega
      | succ i' =>
        unfold updateLoop
        rw [List.getElem?_cons_succ, List.getElem?_cons_succ]
        exact ih b' (i0 + 1) i' (by omega)

theorem updateLoop_fields {time : Nat → String} {scraped : Nat → Option Int}
    {d : Nat → Int} : ∀ (ps : List Product) (b i0 i : Nat) (r r' : Product),
    (updateLoop time scraped d i0 b ps)[i]? = some r' → ps[i]? = some r →
    r'.id = r.id ∧ r'.name = r.name ∧ r'.affiliateUrl = r.affiliateUrl ∧
    r'.imageUrl = r.imageUrl ∧ r'.category = r.category ∧ r'.asin = r.asin := by
  intro ps
  induction ps with
  | nil =>
    intro b i0 i r r' h' h
    exact Option.noConfusion (h.symm.trans (List.getElem?_nil))
  | cons p rest ih =>
    intro b i0 i r r' h' h
    cases b with
    | zero =>
      have hrr : r' = r := by
        rw [show updateLoop time scraped d i0 0 (p :: rest) = p :: rest from rfl] at h'
        injection h'.symm.trans h
      subst hrr
      exact ⟨rfl, rfl, rfl, rfl, rfl, rfl⟩
    | succ b' =>
      cases i with
      | zero =>
        unfold updateLoop at h'
        rw [List.getElem?_cons_zero] at h h'
        injection h' with h'
        injection h with h
        subst h'
        subst h
        exact ⟨rfl, rfl, rfl, rfl, rfl, rfl⟩
      | succ i' =>
        unfold updateLoop at h'
        rw [List.getElem?_cons_succ] at h h'
        exact ih b' (i0 + 1) i' r r' h' h

/-- Claim C8: a refresh run keeps the catalog length, writes every record
beyond the 50-record prefix back unchanged, and changes nothing but
currentPrice and priceHistory on prefix records; the returned list models
the single whole-catalog write at the end of the run. -/
theorem refresh_frame (time : Nat → String) (scraped : Nat → Option Int)
    (d : Nat → Int) (ps : List Product) :
    (update_prices time scraped d ps).length = ps.length ∧
    (∀ i, 50 ≤ i → (update_prices time scraped d ps)[i]? = ps[i]?) ∧
    (∀ (i : Nat) (r r' : Product),
        (update_prices time scraped d ps)[i]? = some r' → ps[i]? = some r →
        r'.id = r.id ∧ r'.name = r.name ∧ r'.affiliateUrl = r.affiliateUrl ∧
        r'.imageUrl = r.imageUrl ∧ r'.category = r.category ∧ r'.asin = r.asin) :=
  ⟨updateLoop_length ps 50 0, fun i hi => updateLoop_getElem?_ge ps 50 0 i hi,
   fun i r r' h' h => updateLoop_fields ps 50 0 i r r' h' h⟩

/-- Witness for C8: the frame conditions evaluated on a one-record
catalog. -/
theorem refresh_frame_witness :
    (50 ≤ 60) ∧
    (update_prices timeO noScrape zeroDelta [plainRecord])[60]? = [plainRecord][60]? ∧
    refreshedPlain.id = plainRecord.id :=
  ⟨by decide,
    (refresh_frame timeO noScrape zeroDelta [plainRecord]).2.1 60 (by decide),
    ((refresh_frame timeO noScrape zeroDelta [plainRecord]).2.2 0 plainRecord
        refreshedPlain (by decide) (by decide)).1⟩

/-! ### History bound over reachable catalogs (C3) -/

theorem trimHistory_length_le (l : List PriceEntry) : (trimHistory l).length ≤ 30 ∨
    (trimHistory l).length = l.length := by
  unfold trimHistory
  split
  · left; rw [List.length_drop]; omega
  · right; rfl

theorem trimHistory_le_30 (l : List PriceEntry) : (trimHistory l).length ≤ 30 := by
  unfold trimHistory
  split
  · next hl => rw [List.length_drop]; omega
  · next hl => omega

theorem processRecord_hist_le (t : String) (s : Option Int) (dd : Int) (r : Product) :
    (processRecord t s dd r).priceHistory.length ≤ 30 := by
  rw [processRecord_priceHistory]
  exact trimHistory_le_30 _

theorem updateLoop_hist_le {time : Nat → String} {scraped : Nat → Option Int}
    {d : Nat → Int} : ∀ (ps : List Product) (b i0 : Nat),
    (∀ r ∈ ps, r.priceHistory.length ≤ 30) →
    ∀ r ∈ updateLoop time scraped d i0 b ps, r.priceHistory.length ≤ 30 := by
  intro ps
  induction ps with
  | nil =>
    intro b i0 _ r hr
    rw [show updateLoop time scraped d i0 b [] = [] from by cases b <;> rfl] at hr
    exact absurd hr (List.not_mem_nil r)
  | cons p rest ih =>
    intro b i0 hps r hr
    cases b with
    | zero => exact hps r hr
    | succ b' =>
      unfold updateLoop at hr
      rcases List.mem_cons.mp hr with h | h
      · exact h ▸ processRecord_hist_le _ _ _ _
      · exact ih b' (i0 + 1) (fun x hx => hps x (List.mem_cons_of_mem p hx)) r h

theorem mergeCandidate_hist_le {now : String} {st : List Product × List (List Char)}
    {c : Candidate} (hst : ∀ r ∈ st.1, r.priceHistory.length ≤ 30) :
    ∀ r ∈ (mergeCandidate now st c).1, r.priceHistory.length ≤ 30 := by
  unfold mergeCandidate
  split
  · exact hst
  · intro r hr
    rcases List.mem_append.mp hr with h | h
    · exact hst r h
    · have := List.mem_singleton.mp h
      subst this
      simp


theorem foldl_merge_hist_le {now : String} : ∀ (cs : List Candidate)
    (st : List Product × List (List Char)),
    (∀ r ∈ st.1, r.priceHistory.length ≤ 30) →
    ∀ r ∈ (cs.foldl (mergeCandidate now) st).1, r.priceHistory.length ≤ 30 := by
  intro cs
  induction cs with
  | nil => intro st h; exact h
  | cons c cs ih => intro st h; exact ih _ (mergeCandidate_hist_le h)

theorem import_ranking_hist_le {now : String} {batches : List (List Candidate)}
    {ps : List Product} (hps : ∀ r ∈ ps, r.priceHistory.length ≤ 30) :
    ∀ r ∈ import_ranking now batches ps, r.priceHistory.length ≤ 30 := by
  unfold import_ranking
  have main : ∀ (bs : List (List Candidate)) (st : List Product × List (List Char)),
      (∀ r ∈ st.1, r.priceHistory.length ≤ 30) →
      ∀ r ∈ (bs.foldl (fun st b => b.foldl (mergeCandidate now) st) st).1,
        r.priceHistory.length ≤ 30 := by
    intro bs
    induction bs with
    | nil => intro st h; exact h
    | cons b bs ih => intro st h; exact ih _ (foldl_merge_hist_le b st h)
  exact main batches (ps, get_existing_asins ps) hps

/-- Claim C3: every catalog state reachable by discovery and refresh runs
has all price histories of length at most 30; each refresh appends exactly
one entry before trimming; and when the history exceeds 30 entries the trim
keeps exactly the 30 most recent ones (a suffix, so the oldest entries are
evicted and the survivors keep their relative order). -/
theorem priceHistory_bound :
    (∀ ps, Reachable ps → ∀ r ∈ ps, r.priceHistory.length ≤ 30) ∧
    (∀ (t : String) (s : Option Int) (dd : Int) (r : Product), ∃ e,
        (processRecord t s dd r).priceHistory = trimHistory (r.priceHistory ++ [e])) ∧
    (∀ l : List PriceEntry, 30 < l.length →
        (trimHistory l).length = 30 ∧ trimHistory l <:+ l) := by
  refine ⟨?_, ?_, ?_⟩
  · intro ps h
    induction h with
    | init => intro r hr; exact absurd hr (List.not_mem_nil r)
    | discovery now batches ps0 h0 ih => exact import_ranking_hist_le ih
    | refresh time scraped d ps0 h0 ih => exact updateLoop_hist_le ps0 50 0 ih
  · intro t s dd r
    exact ⟨_, processRecord_priceHistory t s dd r⟩
  · intro l hl
    unfold trimHistory
    rw [if_pos hl]
    constructor
    · rw [List.length_drop]; omega
    · exact List.drop_suffix _ _

/-- Witness for C3: the record created by a concrete discovery run has a
bounded history, and trimming a concrete 31-entry history keeps exactly the
most recent 30. -/
theorem priceHistory_bound_witness :
    sampleSeeded.priceHistory.length ≤ 30 ∧
    ((trimHistory longHistory).length = 30 ∧ trimHistory longHistory <:+ longHistory) :=
  ⟨priceHistory_bound.1 sampleCatalog
      (Reachable.discovery "2026-01-01" [[sampleCandidate]] [] Reachable.init)
      sampleSeeded (by decide),
   priceHistory_bound.2.2 longHistory (by decide)⟩

/-! ### Ranking-page dedup (C9) -/

/-- Claim C9: on a ranking page whose container pool consists of exactly two
containers resolving to the same identity code, the ASIN-keyed dedup pass
removes the duplicate before per-container extraction, so the page yields
exactly the one candidate extracted from the first container. -/
theorem ranking_page_dedup (e1 e2 : Element) (k : List Char) (c : Candidate)
    (h1 : dedupKey e1 = some k) (h2 : dedupKey e2 = some k)
    (he : extract_product_from_element e1 = some c) :
    scrape_ranking_page [e1, e2] = [c] := by
  have hd : dedupElements [] [e1, e2] = [e1] := by
    simp [dedupElements, h1, h2]
  unfold scrape_ranking_page
  rw [hd]
  simp [List.filterMap_cons, he]

/-- Witness for C9: two copies of a concrete container with the same
data-asin yield exactly one candidate. -/
theorem ranking_page_dedup_witness :
    dedupKey dupElement = some "B07DUPTEST".toList ∧
    extract_product_from_element dupElement = some dupCandidate ∧
    scrape_ranking_page [dupElement, dupElement] = [dupCandidate] :=
  ⟨by decide, by decide,
    ranking_page_dedup dupElement dupElement "B07DUPTEST".toList dupCandidate
      (by decide) (by decide) (by decide)⟩

/-! ### Validator price asymmetry (C10) -/

/-- Claim C10: the validator's price check is asymmetric: currentPrice must
be strictly positive (a violation is reported whenever it is ≤ 0), while
history entries are only checked for strict negativity, so a record with a
positive currentPrice and a zero-priced history entry passes the price
check; and any record with currentPrice 0 makes the whole validation run
fail. -/
theorem validator_price_asymmetry :
    (∀ p : Product, 0 < p.currentPrice → (∀ e ∈ p.priceHistory, 0 ≤ e.price) →
        validate_price p = []) ∧
    (∀ p : Product, p.currentPrice ≤ 0 → validate_price p ≠ []) ∧
    (∀ (dateOk : String → Bool) (ps : List Product) (p : Product),
        p ∈ ps → p.currentPrice = 0 → validationPasses dateOk ps = false) := by
  refine ⟨?_, ?_, ?_⟩
  · intro p hpos hhist
    unfold validate_price
    rw [if_neg (by omega), List.nil_append]
    apply List.filterMap_eq_nil_iff.mpr
    intro i hi
    cases hgi : p.priceHistory[i]? with
    | none => rfl
    | some e =>
      have hmem : e ∈ p.priceHistory := List.getElem?_mem hgi
      show (if e.price < 0 then some (VErr.historyPriceNegative i) else none) = none
      rw [if_neg (by have := hhist e hmem; omega)]
  · intro p hle
    unfold validate_price
    rw [if_pos hle]
    simp
  · intro dateOk ps p hp h0
    have hmem : VErr.currentPriceNonPositive ∈ validate_price p := by
      unfold validate_price
      rw [if_pos (by omega)]
      exact List.mem_append_left _ (List.mem_singleton_self _)
    have herr : VErr.currentPriceNonPositive ∈ validate_product dateOk p := by
      unfold validate_product
      exact List.mem_append_left _
        (List.mem_append_left _ (List.mem_append_right _ hmem))
    have hflat : VErr.currentPriceNonPositive ∈ (ps.map (validate_product dateOk)).flatten :=
      List.mem_flatten.mpr ⟨_, List.mem_map_of_mem _ hp, herr⟩
    have hne : (ps.map (validate_product dateOk)).flatten ≠ [] := by
      intro hnil
      rw [hnil] at hflat
      exact absurd hflat (List.not_mem_nil _)
    unfold validationPasses
    cases hb : ((ps.map (validate_product dateOk)).flatten).isEmpty with
    | false => rfl
    | true => exact absurd (List.isEmpty_iff.mp hb) hne

/-- Witness for C10: a record with currentPrice 980 and a zero-priced
history entry passes the price check, and a catalog holding a record with
currentPrice 0 fails validation. -/
theorem validator_price_asymmetry_witness :
    (0 < zeroHistRecord.currentPrice) ∧
    validate_price zeroHistRecord = [] ∧
    zeroPriceRecord ∈ [zeroPriceRecord] ∧
    zeroPriceRecord.currentPrice = 0 ∧
    validationPasses trueDateOk [zeroPriceRecord] = false :=
  ⟨by decide,
    validator_price_asymmetry.1 zeroHistRecord (by decide) (by decide),
    by decide, by decide,
    validator_price_asymmetry.2.2 trueDateOk [zeroPriceRecord] zeroPriceRecord
      (by decide) (by decide)⟩

/-! ### Discovery merge and catalog key uniqueness (C1) -/

theorem scanMarker_skip {m : List Char} : ∀ {u v : List Char},
    (∀ i, i < u.length → matchMarkerAt m (u.drop i ++ v) = none) →
    scanMarker m (u ++ v) = scanMarker m v := by
  intro u
  induction u with
  | nil => intro v _; rfl
  | cons x t ih =>
    intro v h
    have h0 : matchMarkerAt m (x :: (t ++ v)) = none := by
      have := h 0 (by simp)
      simpa using this
    show scanMarker m (x :: (t ++ v)) = scanMarker m v
    rw [scanMarker_cons_none h0]
    refine ih fun i hi => ?_
    have := h (i + 1) (by simp only [List.length_cons]; omega)
    simpa using this

theorem extract_build (a : List Char) (h10 : a.length = 10)
    (hall : a.all isAsinChar = true) :
    extract_asin_from_url (build_affiliate_url a) = some a := by
  have hsplit : build_affiliate_url a
      = ("https://www.amazon.co.jp".toList ++ (dpMarker ++ a))
          ++ '?' :: "tag=xiora-22".toList := by
    unfold build_affiliate_url
    rw [if_neg (by decide)]
    have h1 : "https://www.amazon.co.jp/dp/".toList
        = "https://www.amazon.co.jp".toList ++ dpMarker := by decide
    have h2 : ("?tag=" ++ ASSOCIATE_TAG).toList = '?' :: "tag=xiora-22".toList := by
      decide
    rw [h1, h2]
    simp [List.append_assoc]
  have hlen24 : ("https://www.amazon.co.jp".toList).length = 24 := by decide
  have hskip := scanMarker_skip (m := dpMarker)
      (u := "https://www.amazon.co.jp".toList) (v := dpMarker ++ a)
      (fun i hi => by
        rw [hlen24] at hi
        interval_cases i <;> rfl)
  have hbase : extract_asin_from_url
      ("https://www.amazon.co.jp".toList ++ (dpMarker ++ a)) = some a := by
    have hscan : scanMarker dpMarker
        ("https://www.amazon.co.jp".toList ++ (dpMarker ++ a)) = some a := by
      rw [hskip]
      exact scanMarker_cons_some (matchMarkerAt_exact h10 hall)
    unfold extract_asin_from_url
    rw [hscan]
  rw [hsplit]
  exact extract_asin_query hbase (by decide)

theorem sameKey_eq_false_of {p b : Product} {kb : List Char}
    (hkb : keyOf b = some kb) (hne : ∀ k, keyOf p = some k → k ≠ kb) :
    sameKey p b = false := by
  unfold sameKey
  cases hkp : keyOf p with
  | none => rfl
  | some k =>
    rw [hkb]
    show (k == kb) = false
    exact beq_eq_false_iff_ne.mpr (hne k hkp)

theorem mergeCandidate_inv {now : String} {ps0 : List Product}
    {st : List Product × List (List Char)} {c : Candidate}
    (hv : ValidAsin c.asin) (h : MergeInv ps0 st) :
    MergeInv ps0 (mergeCandidate now st c) := by
  obtain ⟨hnd, hkey, extra, hext⟩ := h
  unfold mergeCandidate
  split
  · exact ⟨hnd, hkey, extra, hext⟩
  · next hnotin =>
    have hknew : extract_asin_from_url (build_affiliate_url c.asin) = some c.asin :=
      extract_build c.asin hv.1 hv.2
    refine ⟨?_, ?_, ?_⟩
    · unfold NoDupKeys at hnd ⊢
      rw [List.pairwise_append]
      refine ⟨hnd, List.pairwise_singleton _ _, ?_⟩
      intro p hp b hb
      rw [List.mem_singleton] at hb
      subst hb
      exact sameKey_eq_false_of hknew
        fun k hk heq => hnotin (heq ▸ hkey p hp k hk)
    · intro p hp k hk
      rcases List.mem_append.mp hp with h1 | h1
      · exact List.mem_append_left _ (hkey p h1 k hk)
      · rw [List.mem_singleton] at h1
        subst h1
        have hck : some c.asin = some k := hknew.symm.trans hk
        injection hck with hck
        subst hck
        exact List.mem_append_right _ (List.mem_singleton_self _)
    · exact ⟨_, by rw [hext, List.append_assoc]⟩

theorem foldl_merge_inv (now : String) {ps0 : List Product} :
    ∀ (cs : List Candidate) (st : List Product × List (List Char)),
    (∀ c ∈ cs, ValidAsin c.asin) → MergeInv ps0 st →
    MergeInv ps0 (cs.foldl (mergeCandidate now) st) := by
  intro cs
  induction cs with
  | nil => intro st _ h; exact h
  | cons c cs ih =>
    intro st hv h
    exact ih _ (fun x hx => hv x (List.mem_cons_of_mem c hx))
      (mergeCandidate_inv (hv c (List.mem_cons_self c cs)) h)

theorem foldl_batches_inv (now : String) {ps0 : List Product} :
    ∀ (bs : List (List Candidate)) (st : List Product × List (List Char)),
    (∀ b ∈ bs, ∀ c ∈ b, ValidAsin c.asin) → MergeInv ps0 st →
    MergeInv ps0 (bs.foldl (fun st b => b.foldl (mergeCandidate now) st) st) := by
  intro bs
  induction bs with
  | nil => intro st _ h; exact h
  | cons b bs ih =>
    intro st hv h
    exact ih _ (fun x hx => hv x (List.mem_cons_of_mem b hx))
      (foldl_merge_inv now b st (hv b (List.mem_cons_self b bs)) h)

theorem merge_init {ps : List Product} (h : NoDupKeys ps) :
    MergeInv ps (ps, get_existing_asins ps) := by
  refine ⟨h, ?_, [], by simp⟩
  intro p hp k hk
  unfold get_existing_asins
  apply List.mem_filterMap.mpr
  refine ⟨p, hp, ?_⟩
  cases hurl : p.affiliateUrl.isEmpty with
  | true =>
    exfalso
    have hnil : p.affiliateUrl = [] := List.isEmpty_iff.mp hurl
    have hnone : keyOf p = none := by unfold keyOf; rw [hnil]; rfl
    rw [hnone] at hk
    exact Option.noConfusion hk
  | false =>
    rw [if_neg (fun hf => Bool.noConfusion hf)]
    exact hk

/-- Counterexample to C1 as stated: starting from the empty catalog, a
batch holding a well-formed 10-character ASIN and a 12-character
uppercase data-asin value appends two records (the raw ASIN strings
differ, so the dedup does not skip), yet both affiliate URLs parse to the
same 10-character externalKey, so the resulting catalog does contain two
records sharing an externalKey. -/
theorem import_ranking_dedup_counterexample :
    (import_ranking "2026-01-01" [[shortKeyCandidate, longKeyCandidate]] []).length = 2 ∧
    ¬ NoDupKeys (import_ranking "2026-01-01" [[shortKeyCandidate, longKeyCandidate]] []) := by
  exact ⟨by decide, by decide⟩

/-- Claim C1 (amended): for an existing catalog whose records have pairwise
distinct parsed keys and discovery batches whose candidate ASINs are
well-formed (exactly 10 characters of class [A-Z0-9]), the discovery merge
never decreases the catalog length, appends the new records after the
existing ones, and the resulting catalog never contains two records whose
affiliateUrl parses to the same externalKey: a candidate whose ASIN is
already in the set derived from existing affiliateUrls, or equals an
earlier-appended candidate's ASIN, is skipped rather than appended. -/
theorem import_ranking_dedup (now : String) (batches : List (List Candidate))
    (ps : List Product)
    (hv : ∀ b ∈ batches, ∀ c ∈ b, ValidAsin c.asin)
    (hnd : NoDupKeys ps) :
    ps.length ≤ (import_ranking now batches ps).length ∧
    (∃ extra, import_ranking now batches ps = ps ++ extra) ∧
    NoDupKeys (import_ranking now batches ps) := by
  have hinv := foldl_batches_inv now batches (ps, get_existing_asins ps) hv (merge_init hnd)
  obtain ⟨hnd', hkey', extra, hext⟩ := hinv
  have hout : import_ranking now batches ps = ps ++ extra := hext
  refine ⟨?_, ⟨extra, hout⟩, ?_⟩
  · rw [hout, List.length_append]
    omega
  · exact hnd'

/-- Witness for C1 (amended): a concrete discovery run with one well-formed
candidate over the empty catalog. -/
theorem import_ranking_dedup_witness :
    ValidAsin sampleAsin ∧ NoDupKeys ([] : List Product) ∧
    ([] : List Product).length ≤ sampleCatalog.length ∧ NoDupKeys sampleCatalog :=
  ⟨by decide, by decide,
    (import_ranking_dedup "2026-01-01" [[sampleCandidate]] [] (by decide) (by decide)).1,
    (import_ranking_dedup "2026-01-01" [[sampleCandidate]] [] (by decide) (by decide)).2.2⟩

end PriceWatcher
